import Mathlib

/-!
Verification of `port_entity_exporter.py` (port-experimental/entity-exporter).

The script is a REST client over the Port catalog API.  We embed its pure
decision logic shallowly: network responses are supplied by an oracle
(`Env` for the planner-level functions, `HttpResult` for the single-entity
fetch), Python dicts become association lists with dict-update semantics,
and Python's truthiness tests are made explicit.
-/

namespace PortExporter

/-- JSON values as produced by `response.json()`.  Numbers are modelled as
integers; no claim depends on numeric formatting. -/
inductive Json where
  | null
  | bool (b : Bool)
  | num (n : Int)
  | str (s : String)
  | arr (items : List Json)
  | obj (fields : List (String × Json))

/-- Python truthiness (`if entity:`) of a value parsed from JSON:
`None`, `False`, `0`, `""`, `[]` and `{}` are falsy. -/
def pyTruthy : Json → Bool
  | .null => false
  | .bool b => b
  | .num n => n != 0
  | .str s => s != ""
  | .arr items => !items.isEmpty
  | .obj fields => !fields.isEmpty

mutual
/-- Python `repr` of a value parsed from JSON (as used by `str` on
containers).  Escaping inside string reprs is not modelled; no claim
depends on the exact rendering of present values. -/
def pyRepr : Json → String
  | .null => "None"
  | .bool true => "True"
  | .bool false => "False"
  | .num n => toString n
  | .str s => "'" ++ s ++ "'"
  | .arr items => "[" ++ pyReprItems items ++ "]"
  | .obj fields => "\x7b" ++ pyReprFields fields ++ "\x7d"

/-- Comma-separated reprs of list items. -/
def pyReprItems : List Json → String
  | [] => ""
  | [x] => pyRepr x
  | x :: rest => pyRepr x ++ ", " ++ pyReprItems rest

/-- Comma-separated `'key': value` reprs of dict fields. -/
def pyReprFields : List (String × Json) → String
  | [] => ""
  | [(k, v)] => "'" ++ k ++ "': " ++ pyRepr v
  | (k, v) :: rest => "'" ++ k ++ "': " ++ pyRepr v ++ ", " ++ pyReprFields rest
end

/-- Python `str()` of a value parsed from JSON: identity on strings,
`repr`-like otherwise (`str(None) = "None"`, `str(True) = "True"`, ...). -/
def pyStr : Json → String
  | .str s => s
  | j => pyRepr j

/-- An entity record, typed per the data model (§3 of the spec): optional
string metadata fields plus `properties` and `relations` dicts.
`entity.get(k)` on an absent key is `none`. -/
structure Entity where
  identifier : Option String
  title : Option String
  createdAt : Option String
  updatedAt : Option String
  createdBy : Option String
  updatedBy : Option String
  properties : List (String × Json)
  relations : List (String × Json)

/-- A collection ("blueprint") descriptor; only `identifier` is consulted
by the exporter (`blueprint.get('identifier')`). -/
structure Blueprint where
  identifier : Option String
deriving DecidableEq

/-- The export result: the Python dict `blueprint_id -> [entity]`,
modelled as an association list in insertion order. -/
abbrev ExportResult := List (String × List Entity)

/-- Oracle for the Catalog Client calls.  `blueprints` is what
`get_blueprints()` returns, `entitiesFor` what
`get_entities_for_blueprint` returns, `getEntity` what `get_entity`
returns; failures are already absorbed into `[]` / `none` by those
wrappers (see `get_entity_resp` below for the response-level model). -/
structure Env where
  blueprints : List Blueprint
  entitiesFor : String → Bool → List Entity
  getEntity : String → String → Bool → Option Entity

/-- Python dict assignment `m[k] = v`: replace the value at an existing
key in place, else append a new binding. -/
def dictSet (m : List (String × α)) (k : String) (v : α) : List (String × α) :=
  match m with
  | [] => [(k, v)]
  | (k', w) :: rest => if k' = k then (k, v) :: rest else (k', w) :: dictSet rest k v

/-- The pattern `if k not in m: m[k] = []` followed by `m[k].append(e)`:
append to the value at an existing key, else add the binding `k ↦ [e]`. -/
def dictAppendEnt (m : ExportResult) (k : String) (e : Entity) : ExportResult :=
  match m with
  | [] => [(k, [e])]
  | (k', v) :: rest =>
    if k' = k then (k', v ++ [e]) :: rest else (k', v) :: dictAppendEnt rest k e

/-- The filter-loop body shared by `export_all_entities` and
`export_blueprint_entities`: an entity is appended iff
`entity.get('identifier')` is truthy (present and non-empty) and not in
the exclusion set. -/
def keepEntity (exclude : List String) (e : Entity) : Bool :=
  match e.identifier with
  | some s => s != "" && !exclude.contains s
  | none => false

/-- The exclusion-filter loop over one blueprint's entities (lines
265-271 / 301-307 of the source). -/
def filterEntities (exclude : List String) (es : List Entity) : List Entity :=
  es.filter (keepEntity exclude)

/-- `blueprint.get('identifier')` followed by the `if not blueprint_id:
continue` truthiness check: `some` iff the identifier is present and
non-empty. -/
def truthyId (bp : Blueprint) : Option String :=
  match bp.identifier with
  | some s => if s = "" then none else some s
  | none => none

/-- `export_all_entities`: fetch all blueprints, fetch and filter each
blueprint's entities, keep only blueprints with a surviving entity. -/
def export_all_entities (env : Env) (exclude : List String) (ic : Bool) : ExportResult :=
  env.blueprints.foldl
    (fun acc bp =>
      match truthyId bp with
      | none => acc
      | some bid =>
        let filtered := filterEntities exclude (env.entitiesFor bid ic)
        if filtered.isEmpty then acc else dictSet acc bid filtered)
    []

/-- `export_blueprint_entities`: same fetch-and-filter for the
caller-supplied blueprint ids, in order. -/
def export_blueprint_entities (env : Env) (bids : List String) (exclude : List String)
    (ic : Bool) : ExportResult :=
  bids.foldl
    (fun acc bid =>
      let filtered := filterEntities exclude (env.entitiesFor bid ic)
      if filtered.isEmpty then acc else dictSet acc bid filtered)
    []

/-- Python `':' in spec`. -/
def hasColon (s : String) : Bool := s.data.contains ':'

/-- `spec.split(':', 1)` on the character list, for a spec known to
contain a colon: everything before the first colon, and everything after
it. -/
def splitFirstColon : List Char → List Char × List Char
  | [] => ([], [])
  | c :: rest =>
    if c = ':' then ([], rest)
    else
      let p := splitFirstColon rest
      (c :: p.1, p.2)

/-- `blueprint_id, entity_id = spec.split(':', 1)` as a pair of strings. -/
def splitFirstColonStr (s : String) : String × String :=
  let p := splitFirstColon s.data
  (String.mk p.1, String.mk p.2)

/-- One iteration of the explicit-spec loop of `export_specific_entities`:
split the spec at the first colon, call `get_entity`, append a hit under
that blueprint.  The second component records the `get_entity` calls
made, in order. -/
def specificExplicitStep (env : Env) (ic : Bool)
    (acc : ExportResult × List (String × String)) (spec : String) :
    ExportResult × List (String × String) :=
  let p := splitFirstColonStr spec
  match env.getEntity p.1 p.2 ic with
  | some e => (dictAppendEnt acc.1 p.1 e, acc.2 ++ [p])
  | none => (acc.1, acc.2 ++ [p])

/-- One bare id's iteration inside the per-blueprint search of
`export_specific_entities`: call `get_entity` for this id against the
current blueprint, appending a hit under that blueprint. -/
def specificBareInner (env : Env) (ic : Bool) (bid : String)
    (acc2 : ExportResult × List (String × String)) (eid : String) :
    ExportResult × List (String × String) :=
  match env.getEntity bid eid ic with
  | some e => (dictAppendEnt acc2.1 bid e, acc2.2 ++ [(bid, eid)])
  | none => (acc2.1, acc2.2 ++ [(bid, eid)])

/-- One blueprint's iteration of the bare-spec search of
`export_specific_entities`: skip blueprints with a falsy identifier, else
try `get_entity` for every bare id against this blueprint. -/
def specificBareStep (env : Env) (ic : Bool) (bares : List String)
    (acc : ExportResult × List (String × String)) (bp : Blueprint) :
    ExportResult × List (String × String) :=
  match truthyId bp with
  | none => acc
  | some bid => bares.foldl (specificBareInner env ic bid) acc

/-- `export_specific_entities`: partition specs into explicit
(`"blueprint:entity"`) and bare ones preserving order, resolve explicit
specs directly, then search every blueprint for each bare id.  Returns
the result dict together with the trace of `get_entity` calls made. -/
def export_specific_entities (env : Env) (specs : List String) (ic : Bool) :
    ExportResult × List (String × String) :=
  let withB := specs.filter (fun s => hasColon s)
  let withoutB := specs.filter (fun s => !hasColon s)
  let afterExplicit := withB.foldl (specificExplicitStep env ic) ([], [])
  if withoutB.isEmpty then afterExplicit
  else env.blueprints.foldl (specificBareStep env ic withoutB) afterExplicit

/-- The three mutually exclusive scope selectors of `main`. -/
inductive ExportMode where
  | allMode
  | blueprintsMode (bids : List String)
  | entitiesMode (specs : List String)

/-- The dispatch in `main`: the parsed exclusion set is passed to the
all-entities and named-collections exports but not to the named-entities
export. -/
def runExport (env : Env) (mode : ExportMode) (exclude : List String) (ic : Bool) :
    ExportResult :=
  match mode with
  | .allMode => export_all_entities env exclude ic
  | .blueprintsMode bids => export_blueprint_entities env bids exclude ic
  | .entitiesMode specs => (export_specific_entities env specs ic).1

/-- Total number of entities in a result (`sum(len(v) for v in ...)`). -/
def totalEntities (r : ExportResult) : Nat :=
  (r.map (fun p => p.2.length)).sum

/-- CSV cell text for a property/relation value:
`str(v) if v is not None else ''`. -/
def jsonCell : Json → String
  | .null => ""
  | v => pyStr v

/-- The flattened CSV row built for one entity (lines 401-421): seven
fixed columns, then one `prop_`-prefixed column per property key and one
`rel_`-prefixed column per relation key. -/
def entityRow (bid : String) (e : Entity) : List (String × String) :=
  [("blueprint_id", bid),
   ("entity_id", e.identifier.getD ""),
   ("title", e.title.getD ""),
   ("created_at", e.createdAt.getD ""),
   ("updated_at", e.updatedAt.getD ""),
   ("created_by", e.createdBy.getD ""),
   ("updated_by", e.updatedBy.getD "")]
  ++ e.properties.map (fun p => ("prop_" ++ p.1, jsonCell p.2))
  ++ e.relations.map (fun p => ("rel_" ++ p.1, jsonCell p.2))

/-- The `flattened_data` list: one row per entity, iterating the result
dict in order. -/
def flattenEntities (r : ExportResult) : List (List (String × String)) :=
  r.flatMap (fun p => p.2.map (entityRow p.1))

/-- Boolean lexicographic order on strings, as used by Python `sorted`. -/
def strLe (a b : String) : Bool := decide (a ≤ b)

/-- `sorted(fieldnames)` where `fieldnames` is the set union of the keys
of every row. -/
def csvFieldnames (rows : List (List (String × String))) : List String :=
  ((rows.flatMap (fun r => r.map Prod.fst)).dedup).mergeSort strLe

/-- `csv.DictWriter.writerow`: one cell per field name, in header order;
a key absent from the row yields the default `restval`, the empty
string. -/
def renderRow (header : List String) (r : List (String × String)) : List String :=
  header.map (fun c => (List.lookup c r).getD "")

/-- The output formats accepted by the CLI (`click.Choice`). -/
inductive OutFormat where
  | json
  | yaml
  | csv
deriving DecidableEq

/-- `"identifier": v` rendered as a JSON field when the optional field is
present, nothing when absent. -/
def optField (k : String) : Option String → List (String × Json)
  | some s => [(k, .str s)]
  | none => []

/-- An entity as the JSON object `json.dump` writes for it. -/
def entityToJson (e : Entity) : Json :=
  .obj (optField "identifier" e.identifier ++ optField "title" e.title ++
        optField "createdAt" e.createdAt ++ optField "updatedAt" e.updatedAt ++
        optField "createdBy" e.createdBy ++ optField "updatedBy" e.updatedBy ++
        [("properties", .obj e.properties), ("relations", .obj e.relations)])

/-- The whole export result as the JSON document `json.dump` writes: the
mapping blueprint id -> array of entity objects, verbatim. -/
def resultToJson (r : ExportResult) : Json :=
  .obj (r.map (fun p => (p.1, .arr (p.2.map entityToJson))))

/-- The document written by `save_entities`: the nested mapping for the
structured-document and tabular encodings, a header plus cell rows for
the flattened-tabular encoding.  `none` means no file was written. -/
inductive SavedDoc where
  | jsonDoc (doc : Json)
  | yamlDoc (doc : Json)
  | csvDoc (header : List String) (rows : List (List String))

/-- `save_entities` (lines 384-431): json and yaml dump the result
mapping as one nested document; csv flattens, and writes only when
`flattened_data` is non-empty. -/
def save_entities (entities : ExportResult) (fmt : OutFormat) : Option SavedDoc :=
  match fmt with
  | .json => some (.jsonDoc (resultToJson entities))
  | .yaml => some (.yamlDoc (resultToJson entities))
  | .csv =>
    let flattened := flattenEntities entities
    if flattened.isEmpty then none
    else some (.csvDoc (csvFieldnames flattened)
                       (flattened.map (renderRow (csvFieldnames flattened))))

/-- Outcome of one HTTP GET: a parsed JSON body, or any transport / HTTP
/ parse failure (all caught by the `except` clauses). -/
inductive HttpResult where
  | ok (body : Json)
  | fail

/-- `data.get(k)` on a parsed body. -/
def jsonGet : Json → String → Option Json
  | .obj fields, k => List.lookup k fields
  | _, _ => none

/-- The response-handling logic of `get_entity` (lines 196-235): `none`
on any failed request, and on a body whose `entity` field is absent or
falsy; the entity otherwise.  No case raises to the caller. -/
def get_entity_resp (resp : HttpResult) : Option Json :=
  match resp with
  | .fail => none
  | .ok body =>
    match jsonGet body "entity" with
    | some e => if pyTruthy e then some e else none
    | none => none

/-- `get_entity` for a given server: the response to
`GET /blueprints/{bid}/entities/{eid}` is supplied by `server`, then
handled by `get_entity_resp`. -/
def get_entity (server : String → String → Bool → HttpResult)
    (bid eid : String) (ic : Bool) : Option Json :=
  get_entity_resp (server bid eid ic)

/-- Elementwise decoding of a list, failing if any element fails
(`Option`-valued `map`). -/
def mapMOption (f : α → Option β) : List α → Option (List β)
  | [] => some []
  | a :: as =>
    match f a with
    | none => none
    | some b =>
      match mapMOption f as with
      | none => none
      | some bs => some (b :: bs)

/-- Decode an optional string field of an entity object back from JSON. -/
def decodeOptStrField (fields : List (String × Json)) (k : String) :
    Option (Option String) :=
  match List.lookup k fields with
  | none => some none
  | some (.str s) => some (some s)
  | some _ => none

/-- Decode the `properties` / `relations` dict of an entity object back
from JSON (absent means empty). -/
def decodeObjField (fields : List (String × Json)) (k : String) :
    Option (List (String × Json)) :=
  match List.lookup k fields with
  | none => some []
  | some (.obj l) => some l
  | some _ => none

/-- Parse an entity object back from the structured document, per the
data model of §3. -/
def decodeEntity : Json → Option Entity
  | .obj fields => do
    let id ← decodeOptStrField fields "identifier"
    let t ← decodeOptStrField fields "title"
    let ca ← decodeOptStrField fields "createdAt"
    let ua ← decodeOptStrField fields "updatedAt"
    let cb ← decodeOptStrField fields "createdBy"
    let ub ← decodeOptStrField fields "updatedBy"
    let props ← decodeObjField fields "properties"
    let rels ← decodeObjField fields "relations"
    pure ⟨id, t, ca, ua, cb, ub, props, rels⟩
  | _ => none

/-- Parse an entity array back from the structured document. -/
def decodeEntityList : Json → Option (List Entity)
  | .arr items => mapMOption decodeEntity items
  | _ => none

/-- Parse one `blueprint id -> entity array` field of the structured
document. -/
def decodeResultField (p : String × Json) : Option (String × List Entity) :=
  match decodeEntityList p.2 with
  | none => none
  | some es => some (p.1, es)

/-- Parse the whole structured document back into an export result. -/
def decodeResult : Json → Option ExportResult
  | .obj fields => mapMOption decodeResultField fields
  | _ => none

/-- The seven fixed CSV columns, in the order the spec lists them. -/
def fixedCols : List String :=
  ["blueprint_id", "entity_id", "title", "created_at", "updated_at",
   "created_by", "updated_by"]

/-- The `get_entity` calls the bare-id search is expected to make: every
bare id against every blueprint with a truthy identifier, in order. -/
def bareCalls (env : Env) (bares : List String) : List (String × String) :=
  (env.blueprints.filterMap truthyId).flatMap (fun bid => bares.map (fun eid => (bid, eid)))

/-- A sample entity with identifier `"a"` and one property. -/
def entA : Entity :=
  ⟨some "a", some "A", none, none, none, none, [("p", .num 1)], []⟩

/-- A sample entity whose identifier is the empty string — a legal string
identifier that Python's truthiness test treats as absent. -/
def entEmptyId : Entity :=
  ⟨some "", none, none, none, none, none, [], []⟩

section Theorems

/-! ### Generic fold and dict lemmas -/

theorem foldl_invariant {σ β : Type _} {P : σ → Prop} (step : σ → β → σ)
    (hstep : ∀ acc b, P acc → P (step acc b)) :
    ∀ (l : List β) (acc : σ), P acc → P (l.foldl step acc) := by
  intro l
  induction l with
  | nil => intro acc h; exact h
  | cons b tl ih =>
    intro acc h
    exact ih (step acc b) (hstep acc b h)

theorem lookup_cons_if (a k : String) (b : β) (es : List (String × β)) :
    List.lookup a ((k, b) :: es) = if a = k then some b else List.lookup a es := by
  rw [List.lookup_cons]
  by_cases h : a = k
  · subst h; simp
  · simp [beq_false_of_ne h, h]

theorem lookup_dictSet (m : List (String × α)) (k : String) (v : α) (c : String) :
    List.lookup c (dictSet m k v) = if c = k then some v else List.lookup c m := by
  induction m with
  | nil => simp [dictSet, lookup_cons_if]
  | cons hd tl ih =>
    obtain ⟨k', w⟩ := hd
    by_cases hk : k' = k
    · subst hk
      by_cases hc : c = k' <;> simp [dictSet, lookup_cons_if, hc]
    · by_cases hc : c = k'
      · have hck : ¬c = k := fun h => hk (hc.symm.trans h)
        simp [dictSet, lookup_cons_if, hk, hc, hck]
      · simp [dictSet, lookup_cons_if, hk, hc, ih]

theorem lookup_dictAppendEnt (m : ExportResult) (k : String) (e : Entity) (c : String) :
    List.lookup c (dictAppendEnt m k e) =
      if c = k then some ((List.lookup c m).getD [] ++ [e]) else List.lookup c m := by
  induction m with
  | nil => by_cases hc : c = k <;> simp [dictAppendEnt, lookup_cons_if, hc]
  | cons hd tl ih =>
    obtain ⟨k', w⟩ := hd
    by_cases hk : k' = k
    · subst hk
      by_cases hc : c = k' <;> simp [dictAppendEnt, lookup_cons_if, hc]
    · by_cases hc : c = k'
      · have hck : ¬c = k := fun h => hk (hc.symm.trans h)
        simp [dictAppendEnt, lookup_cons_if, hk, hc, hck]
      · simp [dictAppendEnt, lookup_cons_if, hk, hc, ih]

theorem mem_dictSet {m : List (String × α)} {k : String} {v : α} {p : String × α}
    (hp : p ∈ dictSet m k v) : p ∈ m ∨ p = (k, v) := by
  induction m with
  | nil => simpa [dictSet] using hp
  | cons hd tl ih =>
    obtain ⟨k', w⟩ := hd
    by_cases hk : k' = k
    · rcases (by simpa [dictSet, hk] using hp : p = (k, v) ∨ p ∈ tl) with h | h
      · exact Or.inr h
      · exact Or.inl (List.mem_cons_of_mem _ h)
    · rcases (by simpa [dictSet, hk] using hp : p = (k', w) ∨ p ∈ dictSet tl k v) with h | h
      · exact Or.inl (by simp [h])
      · rcases ih h with h' | h'
        · exact Or.inl (List.mem_cons_of_mem _ h')
        · exact Or.inr h'

theorem dictAppendEnt_values_ne_nil {m : ExportResult} {k : String} {e : Entity}
    (hm : ∀ p ∈ m, p.2 ≠ []) : ∀ p ∈ dictAppendEnt m k e, p.2 ≠ [] := by
  induction m with
  | nil =>
    intro p hp
    simp [dictAppendEnt] at hp
    simp [hp]
  | cons hd tl ih =>
    obtain ⟨k', w⟩ := hd
    intro p hp
    by_cases hk : k' = k
    · rcases (by simpa [dictAppendEnt, hk] using hp :
        p = (k, w ++ [e]) ∨ p ∈ tl) with h | h
      · simp [h]
      · exact hm p (List.mem_cons_of_mem _ h)
    · rcases (by simpa [dictAppendEnt, hk] using hp :
        p = (k', w) ∨ p ∈ dictAppendEnt tl k e) with h | h
      · exact h ▸ hm (k', w) (List.mem_cons_self _ _)
      · exact ih (fun q hq => hm q (List.mem_cons_of_mem _ hq)) p h

/-! ### Flattening and serializer basics -/

theorem length_flattenEntities (r : ExportResult) :
    (flattenEntities r).length = totalEntities r := by
  induction r with
  | nil => rfl
  | cons p tl ih =>
    simp [flattenEntities, totalEntities] at ih ⊢
    omega

/-- C10: saving the empty export result still writes a file for the
structured-document (JSON) and tabular (YAML) formats — the document is
the empty mapping — while the flattened-tabular (CSV) format writes no
file. -/
theorem save_empty_mapping_all_formats :
    save_entities [] .json = some (.jsonDoc (.obj [])) ∧
    save_entities [] .yaml = some (.yamlDoc (.obj [])) ∧
    save_entities [] .csv = none :=
  ⟨rfl, rfl, rfl⟩

/-- C8: when the export result contains zero entities, saving in
flattened-tabular (CSV) format writes no output at all. -/
theorem save_csv_nothing_when_no_entities (entities : ExportResult)
    (h : totalEntities entities = 0) :
    save_entities entities .csv = none := by
  have hlen : (flattenEntities entities).length = 0 := by
    rw [length_flattenEntities, h]
  have hnil : flattenEntities entities = [] := List.length_eq_zero.mp hlen
  simp [save_entities, hnil]

/-- Witness for C8 at a concrete result with one collection and zero
entities. -/
theorem save_csv_nothing_witness :
    totalEntities [("svc", [])] = 0 ∧ save_entities [("svc", [])] .csv = none :=
  ⟨rfl, save_csv_nothing_when_no_entities [("svc", [])] rfl⟩

/-! ### get_entity error handling (C7) -/

/-- C7: `get_entity` returns `none` both when the server's body has no
`entity` field and when the request fails, and the two cases are
indistinguishable from the return value.  (The embedding is a total
function into `Option`, mirroring that no case raises to the caller.) -/
theorem get_entity_none_on_not_found_and_failure
    (server : String → String → Bool → HttpResult) (bid eid : String) (ic : Bool) :
    (∀ body, server bid eid ic = .ok body → jsonGet body "entity" = none →
      get_entity server bid eid ic = none) ∧
    (server bid eid ic = .fail → get_entity server bid eid ic = none) ∧
    (∀ body, server bid eid ic = .ok body → jsonGet body "entity" = none →
      ∀ server2 : String → String → Bool → HttpResult, server2 bid eid ic = .fail →
        get_entity server bid eid ic = get_entity server2 bid eid ic) := by
  refine ⟨?_, ?_, ?_⟩
  · intro body hs hb
    simp [get_entity, hs, get_entity_resp, hb]
  · intro hs
    simp [get_entity, hs, get_entity_resp]
  · intro body hs hb server2 hs2
    simp [get_entity, hs, hs2, get_entity_resp, hb]

/-- Witness for C7: a body without an `entity` field and a failed request
both yield `none`. -/
theorem get_entity_none_witness :
    get_entity (fun _ _ _ => .ok (.obj [])) "bp" "ent" true = none ∧
    get_entity (fun _ _ _ => .fail) "bp" "ent" true = none :=
  ⟨(get_entity_none_on_not_found_and_failure (fun _ _ _ => .ok (.obj []))
      "bp" "ent" true).1 (.obj []) rfl rfl,
   (get_entity_none_on_not_found_and_failure (fun _ _ _ => .fail)
      "bp" "ent" true).2.1 rfl⟩

/-! ### JSON round trip (C6) -/

theorem decodeEntity_entityToJson (e : Entity) :
    decodeEntity (entityToJson e) = some e := by
  obtain ⟨id, t, ca, ua, cb, ub, props, rels⟩ := e
  cases id <;> cases t <;> cases ca <;> cases ua <;> cases cb <;> cases ub <;> rfl

theorem mapMOption_entityToJson (es : List Entity) :
    mapMOption decodeEntity (es.map entityToJson) = some es := by
  induction es with
  | nil => rfl
  | cons e tl ih => simp [mapMOption, decodeEntity_entityToJson, ih]

/-- C6: the structured-document (JSON) save writes the export result
verbatim as one nested document, and parsing that document back per the
data model reconstructs the in-memory result field for field. -/
theorem json_save_roundtrip (entities : ExportResult) :
    save_entities entities .json = some (.jsonDoc (resultToJson entities)) ∧
    decodeResult (resultToJson entities) = some entities := by
  refine ⟨rfl, ?_⟩
  induction entities with
  | nil => rfl
  | cons p tl ih =>
    have hfield : decodeResultField (p.1, .arr (p.2.map entityToJson)) = some p := by
      simp [decodeResultField, decodeEntityList, mapMOption_entityToJson]
    have htl : mapMOption decodeResultField
        (tl.map (fun q => (q.1, Json.arr (q.2.map entityToJson)))) = some tl := by
      simpa [decodeResult, resultToJson] using ih
    simp [decodeResult, resultToJson, mapMOption, hfield, htl]

/-! ### Spec splitting at the first colon (C9) -/

theorem splitFirstColon_append (a b : List Char) (h : ':' ∉ a) :
    splitFirstColon (a ++ ':' :: b) = (a, b) := by
  induction a with
  | nil => simp [splitFirstColon]
  | cons c tl ih =>
    have hc : ¬c = ':' := by
      intro hh
      subst hh
      exact h (List.mem_cons_self _ _)
    have htl : ':' ∉ tl := fun hm => h (List.mem_cons_of_mem _ hm)
    simp [splitFirstColon, hc, ih htl]

/-- C9: a spec of the form `a:b:c` (no colon in `a`) is split at the first
colon only — the single `get_entity` call made uses collection id `a` and
entity id `b:c`. -/
theorem explicit_spec_splits_at_first_colon (env : Env) (a b c : String) (ic : Bool)
    (h : hasColon a = false) :
    (export_specific_entities env [a ++ ":" ++ b ++ ":" ++ c] ic).2 =
      [(a, b ++ ":" ++ c)] := by
  have hdata : (a ++ ":" ++ b ++ ":" ++ c).data = a.data ++ ':' :: (b ++ ":" ++ c).data := by
    simp [String.data_append]
  have hnotin : ':' ∉ a.data := by
    intro hm
    have htrue : a.data.elem ':' = true := List.elem_iff.mpr hm
    have hfalse : a.data.elem ':' = false := h
    rw [htrue] at hfalse
    exact Bool.noConfusion hfalse
  have hsplit : splitFirstColonStr (a ++ ":" ++ b ++ ":" ++ c) = (a, b ++ ":" ++ c) := by
    simp only [splitFirstColonStr]
    rw [hdata, splitFirstColon_append _ _ hnotin]
  have hcolon : hasColon (a ++ ":" ++ b ++ ":" ++ c) = true := by
    rw [show ∀ s : String, hasColon s = s.data.elem ':' from fun _ => rfl]
    refine List.elem_iff.mpr ?_
    rw [hdata]
    simp
  unfold export_specific_entities
  simp only [List.filter_cons, hcolon, Bool.not_true, List.filter_nil, List.isEmpty_nil,
    if_true, List.foldl_cons, List.foldl_nil]
  unfold specificExplicitStep
  rw [hsplit]
  cases henv : env.getEntity a (b ++ ":" ++ c) ic <;> simp [henv]

/-- The null oracle: no blueprints, no entities, every lookup misses. -/
def envNull : Env := ⟨[], fun _ _ => [], fun _ _ _ => none⟩

/-- Witness for C9 on the concrete spec `x:y:z`. -/
theorem explicit_spec_split_witness :
    hasColon "x" = false ∧
    (export_specific_entities envNull ["x" ++ ":" ++ "y" ++ ":" ++ "z"] true).2 =
      [("x", "y" ++ ":" ++ "z")] :=
  ⟨rfl, explicit_spec_splits_at_first_colon envNull "x" "y" "z" true rfl⟩

/-! ### Non-empty-value invariant (C5) -/

theorem export_all_values_ne_nil (env : Env) (exclude : List String) (ic : Bool) :
    ∀ p ∈ export_all_entities env exclude ic, p.2 ≠ [] := by
  unfold export_all_entities
  refine foldl_invariant (P := fun acc : ExportResult => ∀ p ∈ acc, p.2 ≠ []) _ ?_ env.blueprints []
    (fun p hp => absurd hp (List.not_mem_nil p))
  intro acc bp hacc
  cases htid : truthyId bp with
  | none => simpa [htid] using hacc
  | some bid =>
    simp only [htid]
    by_cases hemp : (filterEntities exclude (env.entitiesFor bid ic)).isEmpty = true
    · simpa [hemp] using hacc
    · simp only [hemp, if_false]
      intro p hp
      rcases mem_dictSet hp with hmem | heq
      · exact hacc p hmem
      · intro hnil
        rw [heq] at hnil
        exact hemp (List.isEmpty_iff.mpr hnil)

theorem export_blueprint_values_ne_nil (env : Env) (bids : List String)
    (exclude : List String) (ic : Bool) :
    ∀ p ∈ export_blueprint_entities env bids exclude ic, p.2 ≠ [] := by
  unfold export_blueprint_entities
  refine foldl_invariant (P := fun acc : ExportResult => ∀ p ∈ acc, p.2 ≠ []) _ ?_ bids []
    (fun p hp => absurd hp (List.not_mem_nil p))
  intro acc bid hacc
  by_cases hemp : (filterEntities exclude (env.entitiesFor bid ic)).isEmpty = true
  · simpa [hemp] using hacc
  · simp only [hemp, if_false]
    intro p hp
    rcases mem_dictSet hp with hmem | heq
    · exact hacc p hmem
    · intro hnil
      rw [heq] at hnil
      exact hemp (List.isEmpty_iff.mpr hnil)

theorem specificExplicitStep_values_ne_nil (env : Env) (ic : Bool)
    (acc : ExportResult × List (String × String)) (spec : String)
    (hacc : ∀ p ∈ acc.1, p.2 ≠ []) :
    ∀ p ∈ (specificExplicitStep env ic acc spec).1, p.2 ≠ [] := by
  simp only [specificExplicitStep]
  cases env.getEntity (splitFirstColonStr spec).1 (splitFirstColonStr spec).2 ic with
  | none => exact hacc
  | some e => exact dictAppendEnt_values_ne_nil hacc

theorem specificBareStep_values_ne_nil (env : Env) (ic : Bool) (bares : List String)
    (acc : ExportResult × List (String × String)) (bp : Blueprint)
    (hacc : ∀ p ∈ acc.1, p.2 ≠ []) :
    ∀ p ∈ (specificBareStep env ic bares acc bp).1, p.2 ≠ [] := by
  unfold specificBareStep
  cases truthyId bp with
  | none => exact hacc
  | some bid =>
    refine foldl_invariant (specificBareInner env ic bid)
      (P := fun s : ExportResult × List (String × String) => ∀ p ∈ s.1, p.2 ≠ []) ?_ bares acc hacc
    intro acc2 eid hacc2
    unfold specificBareInner
    cases env.getEntity bid eid ic with
    | none => exact hacc2
    | some e => exact dictAppendEnt_values_ne_nil hacc2

theorem export_specific_values_ne_nil (env : Env) (specs : List String) (ic : Bool) :
    ∀ p ∈ (export_specific_entities env specs ic).1, p.2 ≠ [] := by
  unfold export_specific_entities
  have hexp : ∀ p ∈ ((specs.filter (fun s => hasColon s)).foldl
      (specificExplicitStep env ic) ([], [])).1, p.2 ≠ [] := by
    refine foldl_invariant (specificExplicitStep env ic)
      (P := fun s : ExportResult × List (String × String) => ∀ p ∈ s.1, p.2 ≠ []) ?_ _ ([], [])
      (fun p hp => absurd hp (List.not_mem_nil p))
    intro acc spec
    exact specificExplicitStep_values_ne_nil env ic acc spec
  by_cases hbare : (specs.filter (fun s => !hasColon s)).isEmpty = true
  · simpa [hbare] using hexp
  · simp only [hbare, if_false]
    refine foldl_invariant (specificBareStep env ic _)
      (P := fun s : ExportResult × List (String × String) => ∀ p ∈ s.1, p.2 ≠ []) ?_ env.blueprints _ hexp
    intro acc bp
    exact specificBareStep_values_ne_nil env ic _ acc bp

/-- C5: in every mode, the export result never maps a collection key to an
empty entity sequence. -/
theorem result_values_never_empty (env : Env) (mode : ExportMode)
    (exclude : List String) (ic : Bool) :
    ∀ p ∈ runExport env mode exclude ic, p.2 ≠ [] := by
  cases mode with
  | allMode => exact export_all_values_ne_nil env exclude ic
  | blueprintsMode bids => exact export_blueprint_values_ne_nil env bids exclude ic
  | entitiesMode specs => exact export_specific_values_ne_nil env specs ic

/-- An oracle with one blueprint `svc` holding the single entity `entA`. -/
def envA : Env := ⟨[⟨some "svc"⟩], fun _ _ => [entA], fun _ _ _ => some entA⟩

/-- Witness for C5 on a concrete all-entities run. -/
theorem result_values_never_empty_witness :
    ("svc", [entA]) ∈ runExport envA .allMode [] true ∧ ("svc", [entA]).2 ≠ [] := by
  have heval : runExport envA .allMode [] true = [("svc", [entA])] := rfl
  have hmem : ("svc", [entA]) ∈ runExport envA .allMode [] true := by
    rw [heval]
    exact List.mem_singleton.mpr rfl
  exact ⟨hmem, result_values_never_empty envA .allMode [] true ("svc", [entA]) hmem⟩

/-! ### The exclusion filter (C1) -/

/-- C1 counterexample: an entity whose identifier is the empty string —
which is not in the (empty) exclusion set — is nonetheless dropped by the
filter, because Python's truthiness check discards falsy identifiers. -/
theorem exclusion_filter_counterexample :
    entEmptyId.identifier = some "" ∧
    (([] : List String).contains "" = false) ∧
    filterEntities [] [entEmptyId] = [] :=
  ⟨rfl, rfl, rfl⟩

/-- C1 (amended): the filter keeps exactly the entities whose identifier
is present, non-empty and not in the exclusion set, preserving order (a
sublist of the input); and in both the all-entities and named-collections
modes, every collection's stored sequence is exactly the filtered fetch
result for that collection. -/
theorem exclusion_filter_amended (exclude : List String) (S : List Entity) :
    (filterEntities exclude S).Sublist S ∧
    (∀ e, e ∈ filterEntities exclude S ↔
      e ∈ S ∧ ∃ s, e.identifier = some s ∧ s ≠ "" ∧ exclude.contains s = false) ∧
    (∀ env ic p, p ∈ export_all_entities env exclude ic →
      p.2 = filterEntities exclude (env.entitiesFor p.1 ic)) ∧
    (∀ env bids ic p, p ∈ export_blueprint_entities env bids exclude ic →
      p.2 = filterEntities exclude (env.entitiesFor p.1 ic)) := by
  refine ⟨List.filter_sublist _, ?_, ?_, ?_⟩
  · intro e
    cases hid : e.identifier with
    | none => simp [filterEntities, List.mem_filter, keepEntity, hid]
    | some s => simp [filterEntities, List.mem_filter, keepEntity, hid, and_assoc]
  · intro env ic
    unfold export_all_entities
    refine foldl_invariant
      (P := fun acc : ExportResult => ∀ p ∈ acc, p.2 = filterEntities exclude (env.entitiesFor p.1 ic))
      _ ?_ env.blueprints [] (fun p hp => absurd hp (List.not_mem_nil p))
    intro acc bp hacc
    cases htid : truthyId bp with
    | none => simpa [htid] using hacc
    | some bid =>
      simp only [htid]
      by_cases hemp : (filterEntities exclude (env.entitiesFor bid ic)).isEmpty = true
      · simpa [hemp] using hacc
      · simp only [hemp, if_false]
        intro p hp
        rcases mem_dictSet hp with hmem | heq
        · exact hacc p hmem
        · rw [heq]
  · intro env bids ic
    unfold export_blueprint_entities
    refine foldl_invariant
      (P := fun acc : ExportResult => ∀ p ∈ acc, p.2 = filterEntities exclude (env.entitiesFor p.1 ic))
      _ ?_ bids [] (fun p hp => absurd hp (List.not_mem_nil p))
    intro acc bid hacc
    by_cases hemp : (filterEntities exclude (env.entitiesFor bid ic)).isEmpty = true
    · simpa [hemp] using hacc
    · simp only [hemp, if_false]
      intro p hp
      rcases mem_dictSet hp with hmem | heq
      · exact hacc p hmem
      · rw [heq]

/-- A sample entity with identifier `"b"`. -/
def entB : Entity := ⟨some "b", none, none, none, none, none, [], []⟩

/-- Witness for C1 (amended): with exclusion set `{"b"}`, the entity with
identifier `"a"` is kept. -/
theorem exclusion_filter_witness :
    entA ∈ filterEntities ["b"] [entA, entB] :=
  ((exclusion_filter_amended ["b"] [entA, entB]).2.1 entA).mpr
    ⟨by simp, "a", rfl, by decide, by decide⟩

/-! ### Call-trace lemmas for named-entities mode (C3, C4) -/

theorem specificExplicitStep_trace (env : Env) (ic : Bool)
    (acc : ExportResult × List (String × String)) (spec : String) :
    (specificExplicitStep env ic acc spec).2 = acc.2 ++ [splitFirstColonStr spec] := by
  simp only [specificExplicitStep]
  cases env.getEntity (splitFirstColonStr spec).1 (splitFirstColonStr spec).2 ic <;> rfl

theorem explicit_fold_trace (env : Env) (ic : Bool) :
    ∀ (specs : List String) (acc : ExportResult × List (String × String)),
      (specs.foldl (specificExplicitStep env ic) acc).2 =
        acc.2 ++ specs.map splitFirstColonStr := by
  intro specs
  induction specs with
  | nil => intro acc; simp
  | cons s tl ih =>
    intro acc
    rw [List.foldl_cons, ih, specificExplicitStep_trace]
    simp

theorem specificBareInner_trace (env : Env) (ic : Bool) (bid : String)
    (acc2 : ExportResult × List (String × String)) (eid : String) :
    (specificBareInner env ic bid acc2 eid).2 = acc2.2 ++ [(bid, eid)] := by
  simp only [specificBareInner]
  cases env.getEntity bid eid ic <;> rfl

theorem bare_inner_fold_trace (env : Env) (ic : Bool) (bid : String) :
    ∀ (bares : List String) (acc : ExportResult × List (String × String)),
      (bares.foldl (specificBareInner env ic bid) acc).2 =
        acc.2 ++ bares.map (fun eid => (bid, eid)) := by
  intro bares
  induction bares with
  | nil => intro acc; simp
  | cons eid tl ih =>
    intro acc
    rw [List.foldl_cons, ih, specificBareInner_trace]
    simp

theorem bare_outer_fold_trace (env : Env) (ic : Bool) (bares : List String) :
    ∀ (bps : List Blueprint) (acc : ExportResult × List (String × String)),
      (bps.foldl (specificBareStep env ic bares) acc).2 =
        acc.2 ++ (bps.filterMap truthyId).flatMap
          (fun bid => bares.map (fun eid => (bid, eid))) := by
  intro bps
  induction bps with
  | nil => intro acc; simp
  | cons bp tl ih =>
    intro acc
    rw [List.foldl_cons, ih]
    cases htid : truthyId bp with
    | none => simp [specificBareStep, htid]
    | some bid =>
      simp [specificBareStep, htid, bare_inner_fold_trace]

/-- The `get_entity` call trace of `export_specific_entities`: one call per
explicit spec at its colon split, followed by one call per
(truthy blueprint, bare id) pair. -/
theorem export_specific_trace (env : Env) (specs : List String) (ic : Bool) :
    (export_specific_entities env specs ic).2 =
      (specs.filter (fun s => hasColon s)).map splitFirstColonStr ++
      bareCalls env (specs.filter (fun s => !hasColon s)) := by
  unfold export_specific_entities
  by_cases hbare : (specs.filter (fun s => !hasColon s)).isEmpty = true
  · have hnil : specs.filter (fun s => !hasColon s) = [] := List.isEmpty_iff.mp hbare
    rw [if_pos hbare, explicit_fold_trace]
    simp [bareCalls, hnil]
  · rw [if_neg hbare, bare_outer_fold_trace, explicit_fold_trace]
    simp [bareCalls]

/-! ### Result-membership lemmas for named-entities mode -/

theorem entIn_dictAppendEnt_self (m : ExportResult) (k : String) (e : Entity) :
    ∃ l, List.lookup k (dictAppendEnt m k e) = some l ∧ e ∈ l := by
  rw [lookup_dictAppendEnt]
  exact ⟨(List.lookup k m).getD [] ++ [e], by simp, by simp⟩

theorem entIn_dictAppendEnt_mono {m : ExportResult} {c : String} {ent : Entity}
    (h : ∃ l, List.lookup c m = some l ∧ ent ∈ l) (k : String) (e : Entity) :
    ∃ l, List.lookup c (dictAppendEnt m k e) = some l ∧ ent ∈ l := by
  obtain ⟨l, hl, hm⟩ := h
  rw [lookup_dictAppendEnt]
  by_cases hc : c = k
  · subst hc
    exact ⟨(List.lookup c m).getD [] ++ [e], by simp, by simp [hl, hm]⟩
  · exact ⟨l, by simp [hc, hl], hm⟩

theorem entIn_explicitStep_mono (env : Env) (ic : Bool)
    (acc : ExportResult × List (String × String)) (spec : String) {c : String} {ent : Entity}
    (h : ∃ l, List.lookup c acc.1 = some l ∧ ent ∈ l) :
    ∃ l, List.lookup c (specificExplicitStep env ic acc spec).1 = some l ∧ ent ∈ l := by
  simp only [specificExplicitStep]
  cases env.getEntity (splitFirstColonStr spec).1 (splitFirstColonStr spec).2 ic with
  | none => exact h
  | some e => exact entIn_dictAppendEnt_mono h _ e

theorem entIn_bareInner_mono (env : Env) (ic : Bool) (bid : String)
    (acc2 : ExportResult × List (String × String)) (eid : String) {c : String} {ent : Entity}
    (h : ∃ l, List.lookup c acc2.1 = some l ∧ ent ∈ l) :
    ∃ l, List.lookup c (specificBareInner env ic bid acc2 eid).1 = some l ∧ ent ∈ l := by
  simp only [specificBareInner]
  cases env.getEntity bid eid ic with
  | none => exact h
  | some e => exact entIn_dictAppendEnt_mono h _ e

theorem entIn_bareStep_mono (env : Env) (ic : Bool) (bares : List String)
    (acc : ExportResult × List (String × String)) (bp : Blueprint) {c : String} {ent : Entity}
    (h : ∃ l, List.lookup c acc.1 = some l ∧ ent ∈ l) :
    ∃ l, List.lookup c (specificBareStep env ic bares acc bp).1 = some l ∧ ent ∈ l := by
  unfold specificBareStep
  cases truthyId bp with
  | none => exact h
  | some bid =>
    refine foldl_invariant (specificBareInner env ic bid)
      (P := fun s : ExportResult × List (String × String) =>
        ∃ l, List.lookup c s.1 = some l ∧ ent ∈ l) ?_ bares acc h
    intro acc2 eid h2
    exact entIn_bareInner_mono env ic bid acc2 eid h2

theorem entIn_explicit_fold_of_hit (env : Env) (ic : Bool) {c e : String} {ent : Entity}
    (h : env.getEntity c e ic = some ent) :
    ∀ (specs : List String) (acc : ExportResult × List (String × String)),
      (∃ spec ∈ specs, splitFirstColonStr spec = (c, e)) →
      ∃ l, List.lookup c ((specs.foldl (specificExplicitStep env ic) acc)).1 = some l ∧
        ent ∈ l := by
  intro specs
  induction specs with
  | nil =>
    rintro acc ⟨spec, hmem, _⟩
    exact absurd hmem (List.not_mem_nil spec)
  | cons s tl ih =>
    rintro acc ⟨spec, hmem, hsplit⟩
    rcases List.mem_cons.mp hmem with heq | hmem2
    · subst heq
      have hstep : ∃ l,
          List.lookup c (specificExplicitStep env ic acc spec).1 = some l ∧ ent ∈ l := by
        simp only [specificExplicitStep, hsplit]
        rw [h]
        exact entIn_dictAppendEnt_self acc.1 c ent
      rw [List.foldl_cons]
      refine foldl_invariant (specificExplicitStep env ic)
        (P := fun st : ExportResult × List (String × String) =>
          ∃ l, List.lookup c st.1 = some l ∧ ent ∈ l) ?_ tl _ hstep
      intro acc2 spec2 h2
      exact entIn_explicitStep_mono env ic acc2 spec2 h2
    · rw [List.foldl_cons]
      exact ih (specificExplicitStep env ic acc s) ⟨spec, hmem2, hsplit⟩

theorem entIn_bareInner_fold_of_hit (env : Env) (ic : Bool) {bid eid : String} {ent : Entity}
    (h : env.getEntity bid eid ic = some ent) :
    ∀ (bares : List String) (acc : ExportResult × List (String × String)), eid ∈ bares →
      ∃ l, List.lookup bid ((bares.foldl (specificBareInner env ic bid) acc)).1 = some l ∧
        ent ∈ l := by
  intro bares
  induction bares with
  | nil =>
    intro acc hmem
    exact absurd hmem (List.not_mem_nil eid)
  | cons e2 tl ih =>
    intro acc hmem
    rcases List.mem_cons.mp hmem with heq | hmem2
    · subst heq
      have hstep : ∃ l,
          List.lookup bid (specificBareInner env ic bid acc eid).1 = some l ∧ ent ∈ l := by
        simp only [specificBareInner]
        rw [h]
        exact entIn_dictAppendEnt_self acc.1 bid ent
      rw [List.foldl_cons]
      refine foldl_invariant (specificBareInner env ic bid)
        (P := fun st : ExportResult × List (String × String) =>
          ∃ l, List.lookup bid st.1 = some l ∧ ent ∈ l) ?_ tl _ hstep
      intro acc2 eid2 h2
      exact entIn_bareInner_mono env ic bid acc2 eid2 h2
    · rw [List.foldl_cons]
      exact ih (specificBareInner env ic bid acc e2) hmem2

theorem entIn_bare_fold_of_hit (env : Env) (ic : Bool) (bares : List String)
    {bid eid : String} {ent : Entity}
    (h : env.getEntity bid eid ic = some ent) (heid : eid ∈ bares) :
    ∀ (bps : List Blueprint) (acc : ExportResult × List (String × String)),
      (∃ bp ∈ bps, truthyId bp = some bid) →
      ∃ l, List.lookup bid ((bps.foldl (specificBareStep env ic bares) acc)).1 = some l ∧
        ent ∈ l := by
  intro bps
  induction bps with
  | nil =>
    rintro acc ⟨bp, hmem, _⟩
    exact absurd hmem (List.not_mem_nil bp)
  | cons bp0 tl ih =>
    rintro acc ⟨bp, hmem, htid⟩
    rcases List.mem_cons.mp hmem with heq | hmem2
    · subst heq
      have hstep : ∃ l,
          List.lookup bid (specificBareStep env ic bares acc bp).1 = some l ∧ ent ∈ l := by
        unfold specificBareStep
        rw [htid]
        exact entIn_bareInner_fold_of_hit env ic h bares acc heid
      rw [List.foldl_cons]
      refine foldl_invariant (specificBareStep env ic bares)
        (P := fun st : ExportResult × List (String × String) =>
          ∃ l, List.lookup bid st.1 = some l ∧ ent ∈ l) ?_ tl _ hstep
      intro acc2 bp2 h2
      exact entIn_bareStep_mono env ic bares acc2 bp2 h2
    · rw [List.foldl_cons]
      exact ih (specificBareStep env ic bares acc bp0) ⟨bp, hmem2, htid⟩

/-! ### C3: named-entities mode ignores the exclusion set -/

/-- C3: the named-entities export does not depend on the exclusion set;
its call trace contains exactly one `get_entity` call per explicit spec,
at that spec's first-colon split; and any hit for an explicit spec is
appended under its collection id regardless of the exclusion set. -/
theorem named_entities_ignore_exclusions (env : Env) (specs : List String)
    (E E2 : List String) (ic : Bool) :
    runExport env (.entitiesMode specs) E ic = runExport env (.entitiesMode specs) E2 ic ∧
    (export_specific_entities env specs ic).2 =
      (specs.filter (fun s => hasColon s)).map splitFirstColonStr ++
      bareCalls env (specs.filter (fun s => !hasColon s)) ∧
    (∀ spec ∈ specs, hasColon spec = true →
      ∀ ent, env.getEntity (splitFirstColonStr spec).1 (splitFirstColonStr spec).2 ic =
          some ent →
        ∃ l, List.lookup (splitFirstColonStr spec).1
          (runExport env (.entitiesMode specs) E ic) = some l ∧ ent ∈ l) := by
  refine ⟨rfl, export_specific_trace env specs ic, ?_⟩
  intro spec hmem hcolon ent hent
  show ∃ l, List.lookup (splitFirstColonStr spec).1
    (export_specific_entities env specs ic).1 = some l ∧ ent ∈ l
  unfold export_specific_entities
  have hmemf : spec ∈ specs.filter (fun s => hasColon s) :=
    List.mem_filter.mpr ⟨hmem, hcolon⟩
  have hexp : ∃ l, List.lookup (splitFirstColonStr spec).1
      (((specs.filter (fun s => hasColon s)).foldl (specificExplicitStep env ic)
        ([], []))).1 = some l ∧ ent ∈ l :=
    entIn_explicit_fold_of_hit env ic hent _ ([], []) ⟨spec, hmemf, rfl⟩
  by_cases hbare : (specs.filter (fun s => !hasColon s)).isEmpty = true
  · rw [if_pos hbare]
    exact hexp
  · rw [if_neg hbare]
    refine foldl_invariant (specificBareStep env ic _)
      (P := fun st : ExportResult × List (String × String) =>
        ∃ l, List.lookup (splitFirstColonStr spec).1 st.1 = some l ∧ ent ∈ l)
      ?_ env.blueprints _ hexp
    intro acc2 bp2 h2
    exact entIn_bareStep_mono env ic _ acc2 bp2 h2

/-- The oracle used in the C3 witness: no blueprints, every single-entity
lookup hits `entA`. -/
def envC3 : Env := ⟨[], fun _ _ => [], fun _ _ _ => some entA⟩

/-- Witness for C3 on the explicit spec `c:e` with `e` in the exclusion
set. -/
theorem named_entities_ignore_exclusions_witness :
    runExport envC3 (.entitiesMode ["c:e"]) ["e"] true =
      runExport envC3 (.entitiesMode ["c:e"]) [] true ∧
    (∃ l, List.lookup "c"
      (runExport envC3 (.entitiesMode ["c:e"]) ["e"] true) = some l ∧ entA ∈ l) := by
  have h := named_entities_ignore_exclusions envC3 ["c:e"] ["e"] [] true
  exact ⟨h.1, h.2.2 "c:e" (List.mem_singleton.mpr rfl) rfl entA rfl⟩

/-! ### C4: the bare-id search over blueprints -/

/-- An oracle whose only blueprint has the empty-string identifier and
whose single-entity lookups always hit. -/
def envC4 : Env := ⟨[⟨some ""⟩], fun _ _ => [], fun _ _ _ => some entA⟩

/-- C4 counterexample: `listCollections` returns a blueprint (with
identifier `""`), `get_entity` would hit for the bare id `"x"` against it,
yet no `get_entity` call is attempted and the result is empty — the
truthiness check skips the blueprint. -/
theorem bare_id_search_counterexample :
    envC4.blueprints = [⟨some ""⟩] ∧
    envC4.getEntity "" "x" true = some entA ∧
    (export_specific_entities envC4 ["x"] true).2 = [] ∧
    (export_specific_entities envC4 ["x"] true).1 = [] :=
  ⟨rfl, rfl, rfl, rfl⟩

/-- C4 (amended): for every blueprint returned by `listCollections` whose
identifier is present and non-empty, and every bare spec, a
`get_entity` call is attempted against that blueprint, and every hit is
appended under the blueprint where it was found — so a bare id present
under two such blueprints appears under both. -/
theorem bare_id_searched_in_truthy_collections (env : Env) (specs : List String)
    (ic : Bool) (bp : Blueprint) (bid eid : String)
    (hbp : bp ∈ env.blueprints) (hid : bp.identifier = some bid) (hne : bid ≠ "")
    (heid : eid ∈ specs) (hbare : hasColon eid = false) :
    (bid, eid) ∈ (export_specific_entities env specs ic).2 ∧
    ∀ ent, env.getEntity bid eid ic = some ent →
      ∃ l, List.lookup bid (export_specific_entities env specs ic).1 = some l ∧
        ent ∈ l := by
  have htid : truthyId bp = some bid := by simp [truthyId, hid, hne]
  have hmemf : eid ∈ specs.filter (fun s => !hasColon s) :=
    List.mem_filter.mpr ⟨heid, by simp [hbare]⟩
  constructor
  · rw [export_specific_trace]
    refine List.mem_append_right _ ?_
    refine List.mem_flatMap.mpr ⟨bid, ?_, ?_⟩
    · exact List.mem_filterMap.mpr ⟨bp, hbp, htid⟩
    · exact List.mem_map.mpr ⟨eid, hmemf, rfl⟩
  · intro ent hent
    show ∃ l, List.lookup bid (export_specific_entities env specs ic).1 = some l ∧ ent ∈ l
    unfold export_specific_entities
    have hbarene : ¬(specs.filter (fun s => !hasColon s)).isEmpty = true := by
      intro hemp
      rw [List.isEmpty_iff.mp hemp] at hmemf
      exact absurd hmemf (List.not_mem_nil eid)
    rw [if_neg hbarene]
    exact entIn_bare_fold_of_hit env ic _ hent hmemf env.blueprints _ ⟨bp, hbp, htid⟩

/-- An oracle with two truthy blueprints whose single-entity lookups
always hit. -/
def envC4b : Env := ⟨[⟨some "b1"⟩, ⟨some "b2"⟩], fun _ _ => [], fun _ _ _ => some entA⟩

/-- Witness for C4 (amended): the bare id `x` is looked up against
blueprint `b1` and the hit lands under `b1`. -/
theorem bare_id_searched_witness :
    ("b1", "x") ∈ (export_specific_entities envC4b ["x"] true).2 ∧
    (∃ l, List.lookup "b1" (export_specific_entities envC4b ["x"] true).1 = some l ∧
      entA ∈ l) := by
  have h := bare_id_searched_in_truthy_collections envC4b ["x"] true ⟨some "b1"⟩ "b1" "x"
    (List.mem_cons_self _ _) rfl (by decide) (List.mem_singleton.mpr rfl) rfl
  exact ⟨h.1, h.2 entA rfl⟩

/-! ### C2: the flattened-tabular (CSV) shape -/

theorem exists_entity_of_total_pos (r : ExportResult) (h : 0 < totalEntities r) :
    ∃ p ∈ r, ∃ e, e ∈ p.2 := by
  induction r with
  | nil => simp [totalEntities] at h
  | cons p tl ih =>
    by_cases hp : p.2 = []
    · have h2 : 0 < totalEntities tl := by simpa [totalEntities, hp] using h
      obtain ⟨q, hq, e, he⟩ := ih h2
      exact ⟨q, List.mem_cons_of_mem _ hq, e, he⟩
    · obtain ⟨e, he⟩ := List.exists_mem_of_ne_nil _ hp
      exact ⟨p, List.mem_cons_self _ _, e, he⟩

theorem mem_flattenEntities {r : ExportResult} {row : List (String × String)} :
    row ∈ flattenEntities r ↔ ∃ p ∈ r, ∃ e ∈ p.2, row = entityRow p.1 e := by
  simp [flattenEntities, List.mem_flatMap, List.mem_map, eq_comm]

theorem mem_entityRow_keys {bid : String} {e : Entity} {c : String} :
    c ∈ (entityRow bid e).map Prod.fst ↔
      (c ∈ fixedCols ∨ (∃ kv ∈ e.properties, c = "prop_" ++ kv.1) ∨
        (∃ kv ∈ e.relations, c = "rel_" ++ kv.1)) := by
  simp [entityRow, fixedCols, List.mem_append, List.mem_map, eq_comm, or_assoc]

theorem mem_csvFieldnames {rows : List (List (String × String))} {c : String} :
    c ∈ csvFieldnames rows ↔ ∃ r ∈ rows, c ∈ r.map Prod.fst := by
  unfold csvFieldnames
  rw [(List.mergeSort_perm _ strLe).mem_iff, List.mem_dedup, List.mem_flatMap]

theorem csvFieldnames_sorted (rows : List (List (String × String))) :
    List.Sorted (· ≤ ·) (csvFieldnames rows) := by
  have htrans : ∀ a b c : String, strLe a b = true → strLe b c = true →
      strLe a c = true := by
    intro a b c hab hbc
    simp only [strLe, decide_eq_true_eq] at hab hbc ⊢
    exact le_trans hab hbc
  have htotal : ∀ a b : String, (strLe a b || strLe b a) = true := by
    intro a b
    rcases le_total a b with h | h <;> simp [strLe, h]
  have hp := List.sorted_mergeSort htrans htotal
    ((rows.flatMap (fun r => r.map Prod.fst)).dedup)
  exact hp.imp fun hab => of_decide_eq_true hab

theorem renderRow_cells (header : List String) (r : List (String × String)) :
    (renderRow header r).length = header.length ∧
    ∀ c ∈ header, List.lookup c r = none →
      (c, "") ∈ header.zip (renderRow header r) := by
  constructor
  · simp [renderRow]
  · intro c hc hnone
    have hz : header.zip (renderRow header r) =
        header.map (fun c => (c, (List.lookup c r).getD "")) := by
      have hzm := List.zip_map' id (fun c => (List.lookup c r).getD "") header
      simpa [renderRow] using hzm
    rw [hz]
    refine List.mem_map.mpr ⟨c, hc, ?_⟩
    simp [hnone]

/-- C2: for a result with at least one entity, the CSV save produces one
header plus one rendered row per entity; the row count equals the total
entity count; the column set is the union of the seven fixed columns with
the `prop_`/`rel_`-prefixed keys across all entities; the columns are in
one lexicographic sort mixing fixed and dynamic names; and a key absent
from a row yields an empty-string cell in that row rather than an absent
column. -/
theorem csv_flatten_shape (entities : ExportResult) (h : 0 < totalEntities entities) :
    save_entities entities .csv =
      some (.csvDoc (csvFieldnames (flattenEntities entities))
        ((flattenEntities entities).map
          (renderRow (csvFieldnames (flattenEntities entities))))) ∧
    (flattenEntities entities).length = totalEntities entities ∧
    List.Sorted (· ≤ ·) (csvFieldnames (flattenEntities entities)) ∧
    (∀ c, c ∈ csvFieldnames (flattenEntities entities) ↔
      (c ∈ fixedCols ∨
        ∃ p ∈ entities, ∃ e ∈ p.2,
          (∃ kv ∈ e.properties, c = "prop_" ++ kv.1) ∨
          (∃ kv ∈ e.relations, c = "rel_" ++ kv.1))) ∧
    (∀ r ∈ flattenEntities entities,
      (renderRow (csvFieldnames (flattenEntities entities)) r).length =
        (csvFieldnames (flattenEntities entities)).length ∧
      ∀ c ∈ csvFieldnames (flattenEntities entities), List.lookup c r = none →
        (c, "") ∈ (csvFieldnames (flattenEntities entities)).zip
          (renderRow (csvFieldnames (flattenEntities entities)) r)) := by
  have hne : flattenEntities entities ≠ [] := by
    intro hnil
    rw [← length_flattenEntities, hnil] at h
    simp at h
  have hempf : ¬(flattenEntities entities).isEmpty = true :=
    fun hemp => hne (List.isEmpty_iff.mp hemp)
  refine ⟨?_, length_flattenEntities entities, csvFieldnames_sorted _, ?_, ?_⟩
  · simp only [save_entities]
    rw [if_neg hempf]
  · intro c
    rw [mem_csvFieldnames]
    constructor
    · rintro ⟨row, hrow, hc⟩
      obtain ⟨p, hp, e, he, heq⟩ := mem_flattenEntities.mp hrow
      subst heq
      rcases mem_entityRow_keys.mp hc with hfix | hdyn
      · exact Or.inl hfix
      · exact Or.inr ⟨p, hp, e, he, hdyn⟩
    · rintro (hfix | ⟨p, hp, e, he, hdyn⟩)
      · obtain ⟨p, hp, e, he⟩ := exists_entity_of_total_pos entities h
        exact ⟨entityRow p.1 e, mem_flattenEntities.mpr ⟨p, hp, e, he, rfl⟩,
          mem_entityRow_keys.mpr (Or.inl hfix)⟩
      · exact ⟨entityRow p.1 e, mem_flattenEntities.mpr ⟨p, hp, e, he, rfl⟩,
          mem_entityRow_keys.mpr (Or.inr hdyn)⟩
  · intro r _
    exact renderRow_cells (csvFieldnames (flattenEntities entities)) r

/-- Witness for C2 on a one-entity result. -/
theorem csv_flatten_witness :
    0 < totalEntities [("b", [entA])] ∧
    save_entities [("b", [entA])] .csv =
      some (.csvDoc (csvFieldnames (flattenEntities [("b", [entA])]))
        ((flattenEntities [("b", [entA])]).map
          (renderRow (csvFieldnames (flattenEntities [("b", [entA])]))))) :=
  ⟨by decide, (csv_flatten_shape [("b", [entA])] (by decide)).1⟩

end Theorems

end PortExporter
